import Mathlib

/-!
Verification of the LINQ-menu-to-ICS converter (`linq_to_ics.py`).

The program is a one-directional transformation from a parsed JSON menu
document to iCalendar text.  This file gives a shallow embedding of the
program's data model and of every function the claims touch:

* `get_meal_times` — the fixed serving-session schedule table;
* `format_description` (with a model of Python's `textwrap.fill` at its
  default settings) — the description formatter;
* `strptime_mdY` / `strftime_Ymd` — the date parsing and key formatting
  used by the document processor (modelling CPython's
  `datetime.strptime(_, "%m/%d/%Y")` and glibc `strftime("%Y%m%d")`);
* `processDoc` / `process_json_data` — the pure part of
  `process_json_file` (file reading and `print` calls are modelled by
  returning the report lines; the ambient UTC timestamp and local
  timezone are explicit parameters);
* `get_vtimezone_component` — the timezone block builder, with the
  ambient zone passed as an explicit `TZContext`;
* `basename` / `splitext_root` / `output_filename` / `driver_write` —
  the file-driver logic of `main` (the file write is modelled by
  returning the chosen output name and content).
-/

namespace LinqToIcs

/-! ## Data model

The JSON shape walked by `process_json_file`.  Fields read with
`dict.get(key)` (default `None`) are `Option`s; collections read with
`dict.get(key, [])` are plain lists. -/

structure Recipe where
  RecipeName : String
deriving DecidableEq, Repr

structure RecipeCategory where
  Recipes : List Recipe
deriving DecidableEq, Repr

structure Meal where
  MenuMealName : String
  RecipeCategories : List RecipeCategory
deriving DecidableEq, Repr

structure Day where
  Date : Option String
  MenuMeals : List Meal
deriving DecidableEq, Repr

structure Plan where
  MenuPlanId : Option String
  Days : List Day
deriving DecidableEq, Repr

structure Session where
  ServingSession : Option String
  MenuPlans : List Plan
deriving DecidableEq, Repr

structure MenuDocument where
  FamilyMenuSessions : List Session
deriving DecidableEq, Repr

/-! ## Meal schedule table -/

/-- `get_meal_times`: the fixed dict lookup with default `(None, None)`.
A missing serving-session label (`None` in Python) also hits the
default. -/
def get_meal_times (meal_name : Option String) : Option (String × String) :=
  if meal_name = some "Breakfast" then some ("080000", "100000")
  else if meal_name = some "Lunch" then some ("110000", "130000")
  else if meal_name = some "Snack" then some ("140000", "160000")
  else none

/-! ## Date parsing: `datetime.strptime(date_str, "%m/%d/%Y")`

CPython's `_strptime` matches `%m` with the regex `(1[0-2]|0[1-9]|[1-9])`,
`%d` with `(3[01]|[12]\d|0[1-9]|[1-9])` and `%Y` with exactly four
digits, requires the whole string to be consumed, and then validates the
day against the month length (the `datetime` constructor).  Because a
two-digit numeral can never be followed by the required `/` when read as
one digit, the regex is deterministic: two adjacent digits must be read
as a two-digit value.  This scanner was differentially tested against
CPython on several hundred thousand inputs. -/

def digitVal (c : Char) : Nat := c.toNat - 48

/-- One `%m`-or-`%d` field: a two-digit value `01..hi`, or a single
digit `1..9` when not followed by another digit. -/
def parseNumField (hi : Nat) : List Char → Option (Nat × List Char)
  | [] => none
  | c1 :: rest1 =>
    if c1.isDigit then
      match rest1 with
      | c2 :: rest2 =>
        if c2.isDigit then
          let v := 10 * digitVal c1 + digitVal c2
          if 1 ≤ v ∧ v ≤ hi then some (v, rest2) else none
        else if 1 ≤ digitVal c1 then some (digitVal c1, rest1) else none
      | [] => if 1 ≤ digitVal c1 then some (digitVal c1, rest1) else none
    else none

/-- Month length used by the `datetime` constructor's validation. -/
def days_in_month (y m : Nat) : Nat :=
  if m = 2 then (if y % 4 = 0 ∧ (y % 100 ≠ 0 ∨ y % 400 = 0) then 29 else 28)
  else if m = 4 ∨ m = 6 ∨ m = 9 ∨ m = 11 then 30
  else 31

/-- `%Y`: exactly four digits (these must also end the string, checked
by the caller by requiring the remainder to be exactly four chars). -/
def parseYear4 : List Char → Option Nat
  | [a, b, c, d] =>
    if a.isDigit && b.isDigit && c.isDigit && d.isDigit then
      some (1000 * digitVal a + 100 * digitVal b + 10 * digitVal c + digitVal d)
    else none
  | _ => none

def parse_mdY_chars (s : List Char) : Option (Nat × Nat × Nat) :=
  match parseNumField 12 s with
  | none => none
  | some (m, rest1) =>
    match rest1 with
    | '/' :: rest2 =>
      match parseNumField 31 rest2 with
      | none => none
      | some (d, rest3) =>
        match rest3 with
        | '/' :: rest4 =>
          match parseYear4 rest4 with
          | none => none
          | some y =>
            if 1 ≤ y ∧ d ≤ days_in_month y m then some (m, d, y) else none
        | _ => none
    | _ => none

/-- The `try: datetime.strptime(date_str, "%m/%d/%Y") except (ValueError,
TypeError)` of the processor; a missing (`None`) date raises `TypeError`
and is `none` here. -/
def strptime_mdY : Option String → Option (Nat × Nat × Nat)
  | none => none
  | some s => parse_mdY_chars s.toList

/-- Zero-padding of `%m` / `%d` (also used by the offset formatter's
`{:02}`). -/
def pad2 (n : Nat) : String := if n < 10 then "0" ++ Nat.repr n else Nat.repr n

/-- `date_obj.strftime("%Y%m%d")`.  glibc's `%Y` is not zero padded
(year 999 renders as `"999"`); `%m` and `%d` are two digits. -/
def strftime_Ymd (y m d : Nat) : String := Nat.repr y ++ pad2 m ++ pad2 d

/-! ## Paths: `os.path.basename` and `os.path.splitext` (POSIX) -/

def basenameL (l : List Char) : List Char :=
  (l.reverse.takeWhile (fun c => c ≠ '/')).reverse

/-- `os.path.basename`: everything after the last `/`. -/
def basename (s : String) : String := String.mk (basenameL s.toList)

/-- Index of the last occurrence of `c` in `l`. -/
def rfindIdx (l : List Char) (c : Char) : Option Nat :=
  match l.reverse.findIdx? (fun x => x = c) with
  | some i => some (l.length - 1 - i)
  | none => none

/-- The root part of `os.path.splitext`: drop the extension at the last
dot, unless that dot is part of a run of leading dots of the base
name. -/
def splitext_root (s : String) : String :=
  let l := s.toList
  let sep : Option Nat := rfindIdx l '/'
  let dot : Option Nat := rfindIdx l '.'
  match dot with
  | none => s
  | some dotIdx =>
    let fi : Nat := match sep with | none => 0 | some si => si + 1
    if fi ≤ dotIdx then
      if ((l.drop fi).take (dotIdx - fi)).any (fun c => c ≠ '.') then
        String.mk (l.take dotIdx)
      else s
    else s

/-- The output name computed by `main`:
`os.path.splitext(os.path.basename(json_file))[0] + ".ics"` —
a name in the current working directory, not a path next to the
input. -/
def output_filename (p : String) : String := splitext_root (basename p) ++ ".ics"

/-- Modelled from the spec: §4.6 and §6 say the output is "an output
path derived by replacing the input's extension", "a sibling file with
the same base name and the calendar file extension" — that is, the
input path itself with its extension replaced by `.ics`. -/
def sibling_path_spec (p : String) : String := splitext_root p ++ ".ics"

/-! ## `textwrap.fill(line, 72)` at default settings

Model of CPython 3.11 `textwrap.TextWrapper` with the defaults used by
`format_description`: `expand_tabs`, `replace_whitespace`,
`break_long_words`, `break_on_hyphens`, `drop_whitespace` all true, no
indents, `max_lines = None`.  The whitespace class of the word
separator regex is the six US-ASCII whitespace characters.  The word
separator scanner below is a deterministic rendering of `wordsep_re`
(the regex alternation is deterministic on every input); character
classes are the ASCII readings of `\w` and `[^\d\W]`, so the model is
faithful for ASCII text.  The scanner and the wrapper were
differentially tested against CPython's `textwrap` on several hundred
thousand random inputs. -/

def isPyWS (c : Char) : Bool :=
  c = ' ' || c = '\t' || c = '\n' || c = '\x0b' || c = '\x0c' || c = '\r'

/-- ASCII `\w`. -/
def isWordChar (c : Char) : Bool := c.isAlphanum || c = '_'

/-- ASCII `[^\d\W]` (a word character that is not a digit). -/
def isLetterChar (c : Char) : Bool := c.isAlpha || c = '_'

/-- The regex class `[\w!"\'&.,?]`. -/
def isWordPunct (c : Char) : Bool :=
  isWordChar c || c = '!' || c = '"' || c = '\'' || c = '&' ||
  c = '.' || c = ',' || c = '?'

/-- `str.expandtabs(tabsize)`: each tab becomes spaces up to the next
column multiple of `tabsize`; newline and carriage return reset the
column. -/
def expandTabsGo (tabsize : Nat) : Nat → List Char → List Char
  | _, [] => []
  | col, c :: rest =>
    if c = '\t' then
      if 0 < tabsize then
        let n := tabsize - col % tabsize
        List.replicate n ' ' ++ expandTabsGo tabsize (col + n) rest
      else expandTabsGo tabsize col rest
    else if c = '\n' ∨ c = '\r' then c :: expandTabsGo tabsize 0 rest
    else c :: expandTabsGo tabsize (col + 1) rest

/-- `_munge_whitespace`: expand tabs, then turn every remaining
whitespace character into a space. -/
def munge (s : List Char) : List Char :=
  (expandTabsGo 8 0 s).map (fun c => if isPyWS c then ' ' else c)

/-- Length of the leading run of hyphens. -/
def hyphenRunLen (l : List Char) : Nat := (l.takeWhile (fun c => c = '-')).length

/-- The em-dash alternative of `wordsep_re` at the current position:
`(?<=[\w!"\'&.,?]) -{2,} (?=\w)`.  `prevRev` is the already-consumed
text, reversed. -/
def emDashCond (prevRev rest : List Char) : Bool :=
  (match prevRev with | c :: _ => isWordPunct c | [] => false) &&
  decide (2 ≤ hyphenRunLen rest) &&
  (match rest.drop (hyphenRunLen rest) with | z :: _ => isWordChar z | [] => false)

/-- The lookahead `(?= [^\d\W] -? [^\d\W])`. -/
def lookaheadHyphenWord : List Char → Bool
  | a :: b :: t =>
    isLetterChar a &&
    (isLetterChar b ||
      (b = '-' && (match t with | z :: _ => isLetterChar z | [] => false)))
  | _ => false

/-- May the lazy word `\S+?` stop here?  `ctxRev` is the reversed text
before this position (at least one word character consumed); the three
disjuncts are the alternatives "hyphenated word", "end of word" and
"em-dash follows" of `wordsep_re`. -/
def wordBreakCond (ctxRev rest : List Char) : Bool :=
  (match ctxRev with
   | c0 :: t =>
     (c0 = '-') &&
     ((match t with
       | x :: y :: _ => isLetterChar x && isLetterChar y
       | _ => false) ||
      (match t with
       | x :: y :: z :: _ => isLetterChar x && y = '-' && isLetterChar z
       | _ => false)) &&
     lookaheadHyphenWord rest
   | [] => false) ||
  (match rest with | [] => true | c :: _ => isPyWS c) ||
  ((match ctxRev with | c :: _ => isWordPunct c | [] => false) &&
   decide (2 ≤ hyphenRunLen rest) &&
   (match rest.drop (hyphenRunLen rest) with | z :: _ => isWordChar z | [] => false))

/-- Extend the current word chunk until `wordBreakCond` allows a stop;
returns the extra characters and the remainder. -/
def scanWord (ctxRev : List Char) : List Char → List Char × List Char
  | [] => ([], [])
  | c :: rest =>
    if wordBreakCond ctxRev (c :: rest) then ([], c :: rest)
    else
      let p := scanWord (c :: ctxRev) rest
      (c :: p.1, p.2)

/-- One pass of the word separator: whitespace run, em-dash run, or
word.  `fuel` bounds the recursion (every chunk is nonempty, so the
input length suffices). -/
def splitGo : Nat → List Char → List Char → List (List Char)
  | 0, _, _ => []
  | _ + 1, _, [] => []
  | fuel + 1, prevRev, c :: rest =>
    if isPyWS c then
      let run := (c :: rest).takeWhile isPyWS
      run :: splitGo fuel (run.reverse ++ prevRev) ((c :: rest).dropWhile isPyWS)
    else if c = '-' && emDashCond prevRev (c :: rest) then
      let k := hyphenRunLen (c :: rest)
      ((c :: rest).take k) ::
        splitGo fuel (((c :: rest).take k).reverse ++ prevRev) ((c :: rest).drop k)
    else
      let p := scanWord (c :: prevRev) rest
      (c :: p.1) :: splitGo fuel (p.1.reverse ++ (c :: prevRev)) p.2

/-- `_split`: the chunk list of a munged line (chunks are nonempty, so
`length + 1` fuel always suffices). -/
def pySplit (text : List Char) : List (List Char) :=
  splitGo (text.length + 1) [] text

/-- A chunk that `str.strip()`s to the empty string. -/
def isBlankChunk (l : List Char) : Bool := l.all isPyWS

/-- The greedy inner loop of `_wrap_chunks`: move chunks onto the line
while they fit.  Returns (chunks taken, new line length, remainder). -/
def packLine (width : Nat) (curLen : Nat) :
    List (List Char) → List (List Char) × Nat × List (List Char)
  | [] => ([], curLen, [])
  | c :: rest =>
    if curLen + c.length ≤ width then
      let p := packLine width (curLen + c.length) rest
      (c :: p.1, p.2.1, p.2.2)
    else ([], curLen, c :: rest)

/-- `str.rfind('-', 0, bound)` on a chunk: index of the last hyphen
strictly below `bound`. -/
def rfindHyphenGo : List Char → Nat → Nat → Option Nat → Option Nat
  | [], _, _, acc => acc
  | c :: rest, bound, i, acc =>
    if i < bound then
      rfindHyphenGo rest bound (i + 1) (if c = '-' then some i else acc)
    else acc

/-- `_handle_long_word` with `break_long_words` and `break_on_hyphens`
true: cut the chunk at the remaining space, or just after the last
hyphen inside it when there is a non-hyphen before that hyphen.
Returns the piece for the current line and the chunk remainder. -/
def handleLongWord (width curLen : Nat) (chunk : List Char) :
    List Char × List Char :=
  let spaceLeft := if width < 1 then 1 else width - curLen
  let endIdx :=
    if spaceLeft < chunk.length then
      match rfindHyphenGo chunk spaceLeft 0 none with
      | some h =>
        if 0 < h ∧ (chunk.take h).any (fun c => c ≠ '-') then h + 1 else spaceLeft
      | none => spaceLeft
    else spaceLeft
  (chunk.take endIdx, chunk.drop endIdx)

/-- Drop the final element of the line when it is all whitespace
(`drop_whitespace` trailing rule). -/
def dropLastBlank : List (List Char) → List (List Char)
  | [] => []
  | [c] => if isBlankChunk c then [] else [c]
  | c :: rest => c :: dropLastBlank rest

/-- The leading-whitespace drop of `_wrap_chunks`: the first chunk of
an iteration is deleted when it is all whitespace and a line has
already been emitted. -/
def dropLeadingBlank (hasLines : Bool) : List (List Char) → List (List Char)
  | [] => []
  | c :: rest => if hasLines && isBlankChunk c then rest else c :: rest

/-- `if cur_line: lines.append(...)`: emit the joined line when the
piece list is nonempty. -/
def mkLineOpt (line : List (List Char)) : Option (List Char) :=
  if line = [] then none else some line.flatten

/-- One iteration after the leading drop: greedy packing, the long-word
break when the next chunk cannot fit on any line, and the
trailing-whitespace drop. -/
def wrapLine (width : Nat) (chunks1 : List (List Char)) :
    Option (List Char) × List (List Char) :=
  let packed := packLine width 0 chunks1
  match packed.2.2 with
  | c :: rest3 =>
    if width < c.length then
      (mkLineOpt (dropLastBlank (packed.1 ++ [(handleLongWord width packed.2.1 c).1])),
       (handleLongWord width packed.2.1 c).2 :: rest3)
    else (mkLineOpt (dropLastBlank packed.1), c :: rest3)
  | [] => (mkLineOpt (dropLastBlank packed.1), [])

/-- One iteration of the outer `while chunks` loop of `_wrap_chunks`:
optionally drop a leading whitespace chunk (only once a line exists),
pack greedily, break a too-long word, drop a trailing whitespace piece,
and emit the line if nonempty. -/
def wrapOnce (width : Nat) (hasLines : Bool) (chunks : List (List Char)) :
    Option (List Char) × List (List Char) :=
  wrapLine width (dropLeadingBlank hasLines chunks)

/-- The outer loop of `_wrap_chunks`, driven by fuel (each iteration on
a nonempty stack strictly shrinks `chunksMeasure`, so that measure is
sufficient fuel). -/
def wrapGo (width : Nat) : Nat → Bool → List (List Char) → List (List Char)
  | 0, _, _ => []
  | _ + 1, _, [] => []
  | fuel + 1, hasLines, c :: rest =>
    let r := wrapOnce width hasLines (c :: rest)
    match r.1 with
    | some line => line :: wrapGo width fuel true r.2
    | none => wrapGo width fuel hasLines r.2

/-- Fuel bound: one unit per chunk character plus one per chunk. -/
def chunksMeasure (cs : List (List Char)) : Nat :=
  (cs.map (fun c => c.length + 1)).sum

/-- `textwrap.wrap(text, width)` at default settings. -/
def pyWrap (width : Nat) (text : String) : List String :=
  let cs := pySplit (munge text.toList)
  (wrapGo width (chunksMeasure cs) false cs).map String.mk

/-- `textwrap.fill(text, width)` = newline-join of `wrap`. -/
def pyFill (width : Nat) (text : String) : String :=
  String.intercalate "\n" (pyWrap width text)

/-! ## `format_description` -/

/-- Substring test (`pat in s` in Python). -/
def strContains (s pat : String) : Bool := decide (pat.toList <:+: s.toList)

/-- The recipe names of one meal, categories in order, recipes in order
within each category. -/
def recipesOfMeal (m : Meal) : List String :=
  ((m.RecipeCategories.map (fun cat => cat.Recipes)).flatten).map (fun r => r.RecipeName)

/-- The classification loop of `format_description`: recipes of
"Daily Special" meals, recipes of "Milk" meals (by substring match, in
that priority), and pre-rendered sections for the other meals (header
line plus bullets, omitted when a meal has no recipes). -/
def mealBuckets : List Meal → List String × List String × List String
  | [] => ([], [], [])
  | m :: rest =>
    let r := mealBuckets rest
    let recipes := recipesOfMeal m
    if strContains m.MenuMealName "Daily Special" then
      (recipes ++ r.1, r.2.1, r.2.2)
    else if strContains m.MenuMealName "Milk" then
      (r.1, recipes ++ r.2.1, r.2.2)
    else if recipes = [] then r
    else (r.1, r.2.1,
      (("== " ++ m.MenuMealName ++ " ==") :: recipes.map (fun s => "- " ++ s)) ++ r.2.2)

/-- The `description_parts` list assembled by `format_description`
before folding: Daily Special section, a `"\n"` (two characters,
backslash and `n`) spacer element before a nonempty "other" group when
something precedes it, the other sections, the same spacer before a
nonempty Milk group when something precedes it, the Milk section. -/
def format_description_parts (meals : List Meal) : List String :=
  let b := mealBuckets meals
  let specials := b.1
  let milk := b.2.1
  let other := b.2.2
  let parts1 :=
    if specials = [] then []
    else "== Daily Special ==" :: specials.map (fun s => "- " ++ s)
  let parts2 :=
    if other = [] then parts1
    else parts1 ++ (if parts1 = [] then [] else ["\\n"]) ++ other
  if milk = [] then parts2
  else parts2 ++ (if parts2 = [] then [] else ["\\n"]) ++
    ("== Milk ==" :: milk.map (fun s => "- " ++ s))

/-- `format_description`: fold every part to width 72 and join with the
literal `\n` escape. -/
def format_description (meals : List Meal) : String :=
  String.intercalate "\\n" ((format_description_parts meals).map (pyFill 72))

/-! ## Event construction and document processing -/

structure IcsEvent where
  uid : String
  dtstamp : String
  dtstart : String
  dtend : String
  summary : String
  description : String
deriving DecidableEq, Repr

/-- `create_ics_event`, with the ambient local zone name an explicit
parameter. -/
def create_ics_event (tzName : String) (e : IcsEvent) : String :=
  "BEGIN:VEVENT\n" ++
  "UID:" ++ e.uid ++ "\n" ++
  "DTSTAMP:" ++ e.dtstamp ++ "\n" ++
  "DTSTART;TZID=" ++ tzName ++ ":" ++ e.dtstart ++ "\n" ++
  "DTEND;TZID=" ++ tzName ++ ":" ++ e.dtend ++ "\n" ++
  "SUMMARY:" ++ e.summary ++ "\n" ++
  "DESCRIPTION:" ++ e.description ++ "\n" ++
  "END:VEVENT\n"

/-- Python f-string rendering of a maybe-missing string. -/
def pyShowOptStr : Option String → String
  | none => "None"
  | some s => s

/-- The per-day body of the processor's innermost loop: an unparsable
date yields a report line and no event; otherwise one event record
built exactly as in `process_json_file` (`ss` is the serving-session
label, `sh`/`eh` the schedule times, `stamp` the per-file DTSTAMP). -/
def processDay (ss sh eh planId fname stamp : String) (day : Day) :
    List String × List IcsEvent :=
  match strptime_mdY day.Date with
  | none => (["Skipping invalid date: " ++ pyShowOptStr day.Date], [])
  | some (m, d, y) =>
    let dk := strftime_Ymd y m d
    ([], [{ uid := dk ++ "-" ++ ss ++ "-" ++ planId ++ "@" ++ basename fname
            dtstamp := stamp
            dtstart := dk ++ "T" ++ sh
            dtend := dk ++ "T" ++ eh
            summary := ss
            description := format_description day.MenuMeals }])

/-- Concatenate (report, event) contributions in traversal order. -/
def pairConcat (ps : List (List String × List IcsEvent)) :
    List String × List IcsEvent :=
  ((ps.map Prod.fst).flatten, (ps.map Prod.snd).flatten)

def processDays (ss sh eh planId fname stamp : String) (days : List Day) :
    List String × List IcsEvent :=
  pairConcat (days.map (processDay ss sh eh planId fname stamp))

def processPlan (ss sh eh fname stamp : String) (plan : Plan) :
    List String × List IcsEvent :=
  processDays ss sh eh (plan.MenuPlanId.getD "") fname stamp plan.Days

/-- One session: an unknown label makes `get_meal_times` return the
sentinel and the session is skipped with no report and no events. -/
def processSession (fname stamp : String) (s : Session) :
    List String × List IcsEvent :=
  match get_meal_times s.ServingSession with
  | none => ([], [])
  | some (sh, eh) =>
    pairConcat (s.MenuPlans.map
      (processPlan (pyShowOptStr s.ServingSession) sh eh fname stamp))

/-- The whole traversal of `process_json_file`: report lines and event
records in document order. -/
def processDoc (doc : MenuDocument) (fname stamp : String) :
    List String × List IcsEvent :=
  pairConcat (doc.FamilyMenuSessions.map (processSession fname stamp))

/-! ## Timezone block -/

/-- The ambient information read from the local zone at build time:
zone key, current UTC offset in seconds, the current daylight
adjustment in seconds when `now.dst()` is not `None`, and the display
name `now.tzname()`. -/
structure TZContext where
  key : String
  utcoffsetSecs : Int
  dstSecs : Option Int
  displayName : String
deriving DecidableEq, Repr

/-- The `try`/`except` of `get_vtimezone_component`: with a daylight
adjustment, standard = current − adjustment and daylight = current;
without one (`now.dst()` is `None`, so the subtraction raises
`TypeError`), both equal the current offset. -/
def std_dst_offsets (utcoff : Int) (dst : Option Int) : Int × Int :=
  match dst with
  | some d => (utcoff - d, utcoff)
  | none => (utcoff, utcoff)

/-- `format_offset`: sign, two-digit hours, two-digit minutes. -/
def format_offset (t : Int) : String :=
  let a := t.natAbs
  (if t < 0 then "-" else "+") ++ pad2 (a / 3600) ++ pad2 (a % 3600 / 60)

/-- `get_vtimezone_component`, with the ambient zone data explicit. -/
def get_vtimezone_component (tz : TZContext) : String :=
  let p := std_dst_offsets tz.utcoffsetSecs tz.dstSecs
  let stdStr := format_offset p.1
  let dstStr := format_offset p.2
  let base :=
    "BEGIN:VTIMEZONE\n" ++
    "TZID:" ++ tz.key ++ "\n" ++
    "BEGIN:STANDARD\n" ++
    "DTSTART:19710101T020000\n" ++
    "TZOFFSETFROM:" ++ dstStr ++ "\n" ++
    "TZOFFSETTO:" ++ stdStr ++ "\n" ++
    "TZNAME:" ++ tz.displayName ++ "\n" ++
    "END:STANDARD\n"
  let withDaylight :=
    if p.1 ≠ p.2 then
      base ++
      "BEGIN:DAYLIGHT\n" ++
      "DTSTART:19710314T020000\n" ++
      "TZOFFSETFROM:" ++ stdStr ++ "\n" ++
      "TZOFFSETTO:" ++ dstStr ++ "\n" ++
      "TZNAME:" ++ tz.displayName ++ "\n" ++
      "END:DAYLIGHT\n"
    else base
  withDaylight ++ "END:VTIMEZONE\n"

/-! ## Whole-file processing and the file driver -/

/-- The pure part of `process_json_file` after the JSON has been read:
`none` when the traversal produced no events, otherwise the complete
VCALENDAR text. -/
def process_json_data (doc : MenuDocument) (fpath stamp : String)
    (tz : TZContext) : Option String :=
  let evs := (processDoc doc fpath stamp).2
  if evs = [] then none
  else some
    ("BEGIN:VCALENDAR\n" ++
     "VERSION:2.0\n" ++
     "PRODID:-//GeminiCodeAssist//LINQ to ICS//EN\n" ++
     get_vtimezone_component tz ++
     String.join (evs.map (create_ics_event tz.key)) ++
     "END:VCALENDAR\n")

/-- The per-input body of `main`: write `output_filename` when the
processor returned truthy content.  Returns the (name, content) pair
written, or `none`. -/
def driver_write (inputPath : String) (content : Option String) :
    Option (String × String) :=
  match content with
  | none => none
  | some c => if c = "" then none else some (output_filename inputPath, c)

end LinqToIcs

namespace LinqToIcs

/-! ## Helper lemmas: traversal membership -/

theorem mem_pairConcat_snd {ps : List (List String × List IcsEvent)} {e : IcsEvent} :
    e ∈ (pairConcat ps).2 ↔ ∃ p ∈ ps, e ∈ p.2 := by
  simp only [pairConcat, List.mem_flatten, List.mem_map]
  constructor
  · rintro ⟨l, ⟨p, hp, rfl⟩, hel⟩
    exact ⟨p, hp, hel⟩
  · rintro ⟨p, hp, hep⟩
    exact ⟨p.2, ⟨p, hp, rfl⟩, hep⟩

theorem mem_processDay_events {ss sh eh pid f st : String} {day : Day} {e : IcsEvent}
    (h : e ∈ (processDay ss sh eh pid f st day).2) :
    ∃ m d y, strptime_mdY day.Date = some (m, d, y) ∧
      e = { uid := strftime_Ymd y m d ++ "-" ++ ss ++ "-" ++ pid ++ "@" ++ basename f
            dtstamp := st
            dtstart := strftime_Ymd y m d ++ "T" ++ sh
            dtend := strftime_Ymd y m d ++ "T" ++ eh
            summary := ss
            description := format_description day.MenuMeals } := by
  cases hp : strptime_mdY day.Date with
  | none => simp [processDay, hp] at h
  | some t =>
    obtain ⟨m, d, y⟩ := t
    refine ⟨m, d, y, rfl, ?_⟩
    simpa [processDay, hp] using h

theorem mem_processDoc_events {doc : MenuDocument} {f st : String} {e : IcsEvent}
    (h : e ∈ (processDoc doc f st).2) :
    ∃ s ∈ doc.FamilyMenuSessions, ∃ sh eh,
      get_meal_times s.ServingSession = some (sh, eh) ∧
      ∃ plan ∈ s.MenuPlans, ∃ day ∈ plan.Days,
        e ∈ (processDay (pyShowOptStr s.ServingSession) sh eh
              (plan.MenuPlanId.getD "") f st day).2 := by
  rw [processDoc, mem_pairConcat_snd] at h
  obtain ⟨p, hp, hep⟩ := h
  rw [List.mem_map] at hp
  obtain ⟨s, hs, rfl⟩ := hp
  refine ⟨s, hs, ?_⟩
  cases hg : get_meal_times s.ServingSession with
  | none => simp [processSession, hg] at hep
  | some t =>
    obtain ⟨sh, eh⟩ := t
    rw [processSession, hg, mem_pairConcat_snd] at hep
    obtain ⟨q, hq, heq⟩ := hep
    rw [List.mem_map] at hq
    obtain ⟨plan, hplan, rfl⟩ := hq
    rw [processPlan, processDays, mem_pairConcat_snd] at heq
    obtain ⟨r, hr, her⟩ := heq
    rw [List.mem_map] at hr
    obtain ⟨day, hday, rfl⟩ := hr
    exact ⟨sh, eh, rfl, plan, hplan, day, hday, her⟩

/-! ## Helper lemmas: string order -/

theorem char_list_lt_append_left (p : List Char) {a b : List Char} (h : a < b) :
    p ++ a < p ++ b := by
  have h' : List.Lex (fun x y => x < y) a b := h
  have hall : List.Lex (fun x y => x < y) (p ++ a) (p ++ b) := by
    induction p with
    | nil => exact h'
    | cons c t ih => exact List.Lex.cons ih
  exact hall

theorem string_append_lt_append_left (a : String) {b c : String}
    (h : b.toList < c.toList) : a ++ b < a ++ c := by
  rw [String.lt_iff_toList_lt]
  have hb : (a ++ b).toList = a.toList ++ b.toList := String.data_append a b
  have hc : (a ++ c).toList = a.toList ++ c.toList := String.data_append a c
  rw [hb, hc]
  exact char_list_lt_append_left a.toList h

/-- The schedule table takes only three values. -/
theorem get_meal_times_mem {o : Option String} {p : String × String}
    (h : get_meal_times o = some p) :
    p = ("080000", "100000") ∨ p = ("110000", "130000") ∨ p = ("140000", "160000") := by
  unfold get_meal_times at h
  split at h
  · exact Or.inl (Option.some.inj h).symm
  · split at h
    · exact Or.inr (Or.inl (Option.some.inj h).symm)
    · split at h
      · exact Or.inr (Or.inr (Option.some.inj h).symm)
      · exact absurd h (by simp)

/-! ## C1 -/

/-- The spec §8 example input: one "Lunch" session, plan id "7", one day
dated 3/4/2024 holding one "Daily Special" meal with recipe "Pizza". -/
def lunchPizzaDoc : MenuDocument :=
  ⟨[{ ServingSession := some "Lunch"
      MenuPlans := [{ MenuPlanId := some "7"
                      Days := [{ Date := some "3/4/2024"
                                 MenuMeals := [{ MenuMealName := "Daily Special"
                                                 RecipeCategories := [⟨[⟨"Pizza"⟩]⟩] }] }] }] }]⟩

/-- The event that the example document produces. -/
def lunchPizzaEvent (stamp : String) : IcsEvent :=
  { uid := "20240304-Lunch-7@menu.json"
    dtstamp := stamp
    dtstart := "20240304T110000"
    dtend := "20240304T130000"
    summary := "Lunch"
    description := "== Daily Special ==\\n" ++ "- Pizza" }

/-- C1: on the document with exactly one Session "Lunch", one Plan "7"
and one Day "3/4/2024" with a single "Daily Special" meal holding the
recipe "Pizza", the processor produces exactly one event, with start
`20240304T110000`, end `20240304T130000`, summary `Lunch`, and a
description containing `- Pizza` (shown by the explicit append
decomposition in `lunchPizzaEvent`), whatever the run's DTSTAMP is. -/
theorem c1_full_example (stamp : String) :
    (processDoc lunchPizzaDoc "menu.json" stamp).2 = [lunchPizzaEvent stamp] := by
  rfl

/-! ## C2 -/

/-- C2: every known session label maps to a time pair with start
strictly earlier than end, and consequently every event produced by the
processor has its DTSTART string strictly below its DTEND string (both
are `<date>T<hhmmss>` with the same date, so the string order is the
instant order). -/
theorem c2_start_strictly_before_end :
    (∀ (o : Option String) (p : String × String),
      get_meal_times o = some p → p.1 < p.2) ∧
    (∀ (doc : MenuDocument) (fname stamp : String) (e : IcsEvent),
      e ∈ (processDoc doc fname stamp).2 → e.dtstart < e.dtend) := by
  constructor
  · intro o p h
    rcases get_meal_times_mem h with rfl | rfl | rfl
    · rw [String.lt_iff_toList_lt]; decide
    · rw [String.lt_iff_toList_lt]; decide
    · rw [String.lt_iff_toList_lt]; decide
  · intro doc fname stamp e he
    obtain ⟨s, -, sh, eh, hg, plan, -, day, -, hd⟩ := mem_processDoc_events he
    obtain ⟨m, d, y, -, rfl⟩ := mem_processDay_events hd
    have hlt : sh.toList < eh.toList := by
      rcases get_meal_times_mem hg with hp | hp | hp <;>
        (injection hp with h1 h2; subst h1; subst h2; decide)
    exact string_append_lt_append_left (strftime_Ymd y m d ++ "T") hlt

/-- Witness for C2 at concrete inputs: the "Lunch" table entry, and the
single event of the example document. -/
theorem c2_witness :
    ("110000" : String) < "130000" ∧
    (lunchPizzaEvent "X").dtstart < (lunchPizzaEvent "X").dtend := by
  constructor
  · exact c2_start_strictly_before_end.1 (some "Lunch") ("110000", "130000") rfl
  · exact c2_start_strictly_before_end.2 lunchPizzaDoc "menu.json" "X"
      (lunchPizzaEvent "X") (by decide)

/-! ## C10 -/

/-- C10: the DTSTAMP is a single per-file value fixed before the
traversal (an explicit parameter of the embedding, computed once in
`process_json_file`), and every event of the traversal carries exactly
that value. -/
theorem c10_shared_dtstamp (doc : MenuDocument) (fname stamp : String)
    (e : IcsEvent) (he : e ∈ (processDoc doc fname stamp).2) :
    e.dtstamp = stamp := by
  obtain ⟨s, -, sh, eh, -, plan, -, day, -, hd⟩ := mem_processDoc_events he
  obtain ⟨m, d, y, -, rfl⟩ := mem_processDay_events hd
  rfl

/-- Witness for C10: the example document's single event carries the
supplied stamp. -/
theorem c10_witness :
    (lunchPizzaEvent "20250101T000000Z").dtstamp = "20250101T000000Z" := by
  exact c10_shared_dtstamp lunchPizzaDoc "menu.json" "20250101T000000Z"
    (lunchPizzaEvent "20250101T000000Z") (by decide)

end LinqToIcs

namespace LinqToIcs

/-! ## C6 -/

/-- A label outside the fixed set maps to the sentinel. -/
theorem get_meal_times_eq_none {lbl : String}
    (h : lbl ∉ (["Breakfast", "Lunch", "Snack"] : List String)) :
    get_meal_times (some lbl) = none := by
  simp only [List.mem_cons, List.not_mem_nil, or_false, not_or] at h
  obtain ⟨h1, h2, h3⟩ := h
  unfold get_meal_times
  rw [if_neg (by simpa using h1), if_neg (by simpa using h2), if_neg (by simpa using h3)]

/-- C6: a session whose label is outside {Breakfast, Lunch, Snack} hits
the lookup sentinel, contributes no events and no report line, and the
remaining sessions are processed exactly as if it were absent. -/
theorem c6_unknown_session_skipped (fname stamp lbl : String) (s : Session)
    (hs : s.ServingSession = some lbl)
    (h : lbl ∉ (["Breakfast", "Lunch", "Snack"] : List String))
    (rest : List Session) :
    get_meal_times s.ServingSession = none ∧
    processSession fname stamp s = ([], []) ∧
    processDoc ⟨s :: rest⟩ fname stamp = processDoc ⟨rest⟩ fname stamp := by
  have hn : get_meal_times s.ServingSession = none := by
    rw [hs]; exact get_meal_times_eq_none h
  have hskip : processSession fname stamp s = ([], []) := by
    simp [processSession, hn]
  exact ⟨hn, hskip, by simp [processDoc, pairConcat, hskip]⟩

/-- A session labelled "Dinner" with a plan and a valid day. -/
def dinnerSession : Session :=
  { ServingSession := some "Dinner"
    MenuPlans := [{ MenuPlanId := some "9", Days := [{ Date := some "3/4/2024", MenuMeals := [] }] }] }

/-- Witness for C6 at the concrete unknown label "Dinner". -/
theorem c6_witness :
    get_meal_times dinnerSession.ServingSession = none ∧
    processSession "m.json" "STAMP" dinnerSession = ([], []) ∧
    processDoc ⟨[dinnerSession]⟩ "m.json" "STAMP" = processDoc ⟨[]⟩ "m.json" "STAMP" :=
  c6_unknown_session_skipped "m.json" "STAMP" "Dinner" dinnerSession rfl (by decide) []

/-! ## C7 -/

/-- C7: a day whose date field does not parse in month/day/year form
contributes exactly one report line and no events, and the following
days of the same plan are processed unchanged; the spec's example
"13/45/2024" is such a date. -/
theorem c7_invalid_date_skipped (ss sh eh pid fname stamp : String)
    (day : Day) (rest : List Day) (h : strptime_mdY day.Date = none) :
    processDay ss sh eh pid fname stamp day =
      (["Skipping invalid date: " ++ pyShowOptStr day.Date], []) ∧
    processDays ss sh eh pid fname stamp (day :: rest) =
      (("Skipping invalid date: " ++ pyShowOptStr day.Date) ::
        (processDays ss sh eh pid fname stamp rest).1,
       (processDays ss sh eh pid fname stamp rest).2) ∧
    strptime_mdY (some "13/45/2024") = none := by
  have hd : processDay ss sh eh pid fname stamp day =
      (["Skipping invalid date: " ++ pyShowOptStr day.Date], []) := by
    simp [processDay, h]
  refine ⟨hd, ?_, by decide⟩
  simp [processDays, pairConcat, hd]

/-- Witness for C7: the invalid date "13/45/2024" is reported and
skipped while the valid sibling day "3/4/2024" still produces its
event. -/
theorem c7_witness :
    processDay "Lunch" "110000" "130000" "7" "m.json" "S"
      { Date := some "13/45/2024", MenuMeals := [] } =
      (["Skipping invalid date: 13/45/2024"], []) ∧
    processDays "Lunch" "110000" "130000" "7" "m.json" "S"
      [{ Date := some "13/45/2024", MenuMeals := [] },
       { Date := some "3/4/2024", MenuMeals := [] }] =
      ("Skipping invalid date: 13/45/2024" ::
        (processDays "Lunch" "110000" "130000" "7" "m.json" "S"
          [{ Date := some "3/4/2024", MenuMeals := [] }]).1,
       (processDays "Lunch" "110000" "130000" "7" "m.json" "S"
          [{ Date := some "3/4/2024", MenuMeals := [] }]).2) ∧
    strptime_mdY (some "13/45/2024") = none :=
  c7_invalid_date_skipped "Lunch" "110000" "130000" "7" "m.json" "S"
    { Date := some "13/45/2024", MenuMeals := [] }
    [{ Date := some "3/4/2024", MenuMeals := [] }] (by decide)

/-! ## C8 -/

/-- C8: when the full traversal yields zero events the processor
returns no text and the driver writes no file; in particular this holds
for any document whose every session carries an unrecognized label. -/
theorem c8_zero_events_no_output :
    (∀ (doc : MenuDocument) (fpath stamp : String) (tz : TZContext),
      (processDoc doc fpath stamp).2 = [] →
      process_json_data doc fpath stamp tz = none ∧
      driver_write fpath (process_json_data doc fpath stamp tz) = none) ∧
    (∀ (doc : MenuDocument) (fpath stamp : String) (tz : TZContext),
      (∀ s ∈ doc.FamilyMenuSessions, ∃ lbl, s.ServingSession = some lbl ∧
        lbl ∉ (["Breakfast", "Lunch", "Snack"] : List String)) →
      process_json_data doc fpath stamp tz = none ∧
      driver_write fpath (process_json_data doc fpath stamp tz) = none) := by
  have base : ∀ (doc : MenuDocument) (fpath stamp : String) (tz : TZContext),
      (processDoc doc fpath stamp).2 = [] →
      process_json_data doc fpath stamp tz = none ∧
      driver_write fpath (process_json_data doc fpath stamp tz) = none := by
    intro doc fpath stamp tz h
    have hp : process_json_data doc fpath stamp tz = none := by
      simp [process_json_data, h]
    exact ⟨hp, by simp [driver_write, hp]⟩
  refine ⟨base, ?_⟩
  intro doc fpath stamp tz hall
  apply base
  show ((doc.FamilyMenuSessions.map (processSession fpath stamp)).map Prod.snd).flatten = []
  rw [List.flatten_eq_nil_iff]
  intro l hl
  rw [List.mem_map] at hl
  obtain ⟨p, hp, rfl⟩ := hl
  rw [List.mem_map] at hp
  obtain ⟨s, hsmem, rfl⟩ := hp
  obtain ⟨lbl, hs, hlbl⟩ := hall s hsmem
  have hn : get_meal_times s.ServingSession = none := by
    rw [hs]; exact get_meal_times_eq_none hlbl
  simp [processSession, hn]

/-- A document with two sessions, both with unrecognized labels. -/
def unknownOnlyDoc : MenuDocument :=
  ⟨[{ ServingSession := some "Dinner"
      MenuPlans := [{ MenuPlanId := some "9", Days := [{ Date := some "3/4/2024", MenuMeals := [] }] }] },
    { ServingSession := some "Brunch", MenuPlans := [] }]⟩

/-- Witness for C8: the all-unknown document produces no calendar text
and no written file. -/
theorem c8_witness :
    process_json_data unknownOnlyDoc "m.json" "S" ⟨"UTC", 0, none, "UTC"⟩ = none ∧
    driver_write "m.json"
      (process_json_data unknownOnlyDoc "m.json" "S" ⟨"UTC", 0, none, "UTC"⟩) = none :=
  c8_zero_events_no_output.2 unknownOnlyDoc "m.json" "S" ⟨"UTC", 0, none, "UTC"⟩
    (by intro s hs
        simp only [unknownOnlyDoc, List.mem_cons, List.not_mem_nil, or_false] at hs
        rcases hs with rfl | rfl
        · exact ⟨"Dinner", rfl, by decide⟩
        · exact ⟨"Brunch", rfl, by decide⟩)

/-! ## C3 -/

/-- C3 counterexample: for the input path "menus/march.json" the driver
writes "march.ics" — the base name with replaced extension, in the
current working directory — not the sibling path "menus/march.ics"
described by the claim. -/
theorem c3_counterexample :
    output_filename "menus/march.json" = "march.ics" ∧
    sibling_path_spec "menus/march.json" = "menus/march.ics" ∧
    output_filename "menus/march.json" ≠ sibling_path_spec "menus/march.json" :=
  ⟨by decide, by decide, by decide⟩

/-- C3 (amended): the output name is always the input's *base name*
with the extension replaced by `.ics`; it coincides with the
extension-replaced input path exactly when the input has no directory
separator. -/
theorem c3_output_is_basename_with_ics (p : String) (h : '/' ∉ p.toList) :
    output_filename p = sibling_path_spec (basename p) ∧
    output_filename p = sibling_path_spec p := by
  have hb : basename p = p := by
    unfold basename basenameL
    have ht : p.toList.reverse.takeWhile (fun c => c ≠ '/') = p.toList.reverse := by
      rw [List.takeWhile_eq_self_iff]
      intro x hx
      rw [List.mem_reverse] at hx
      simp only [decide_eq_true_eq]
      intro hx'
      exact h (hx' ▸ hx)
    rw [ht, List.reverse_reverse]
    cases p
    rfl
  exact ⟨rfl, by calc output_filename p = sibling_path_spec (basename p) := rfl
                  _ = sibling_path_spec p := by rw [hb]⟩

/-- Witness for C3 at the slash-free input "march.json". -/
theorem c3_witness :
    output_filename "march.json" = sibling_path_spec (basename "march.json") ∧
    output_filename "march.json" = sibling_path_spec "march.json" :=
  c3_output_is_basename_with_ics "march.json" (by decide)

/-! ## C5 -/

/-- Modelled from the spec: §4.3 — the zone identifier, one "standard"
sub-block (placeholder transition date, from/to offsets, display name)
always; when the derived standard and daylight offsets differ, also a
"daylight" sub-block with a second placeholder date and the from/to
offsets swapped; the standard offset is the current offset minus the
daylight adjustment when one is observed, otherwise standard = daylight
= current offset. -/
def vtimezone_spec (tz : TZContext) : String :=
  let current := tz.utcoffsetSecs
  let stdOff := match tz.dstSecs with | some adj => current - adj | none => current
  let dayOff := current
  "BEGIN:VTIMEZONE\n" ++ "TZID:" ++ tz.key ++ "\n" ++
  ("BEGIN:STANDARD\n" ++ "DTSTART:19710101T020000\n" ++
   "TZOFFSETFROM:" ++ format_offset dayOff ++ "\n" ++
   "TZOFFSETTO:" ++ format_offset stdOff ++ "\n" ++
   "TZNAME:" ++ tz.displayName ++ "\n" ++ "END:STANDARD\n") ++
  (if stdOff = dayOff then "" else
   "BEGIN:DAYLIGHT\n" ++ "DTSTART:19710314T020000\n" ++
   "TZOFFSETFROM:" ++ format_offset stdOff ++ "\n" ++
   "TZOFFSETTO:" ++ format_offset dayOff ++ "\n" ++
   "TZNAME:" ++ tz.displayName ++ "\n" ++ "END:DAYLIGHT\n") ++
  "END:VTIMEZONE\n"

set_option maxRecDepth 8192 in
/-- C5: the emitted block equals the spec-side assembly (standard
sub-block always, daylight sub-block with swapped offsets exactly when
the offsets differ), and the offset derivation matches the spec's two
cases. -/
theorem c5_vtimezone_refines_spec (tz : TZContext) :
    get_vtimezone_component tz = vtimezone_spec tz ∧
    (tz.dstSecs = none →
      std_dst_offsets tz.utcoffsetSecs tz.dstSecs =
        (tz.utcoffsetSecs, tz.utcoffsetSecs)) ∧
    (∀ adj, tz.dstSecs = some adj →
      std_dst_offsets tz.utcoffsetSecs tz.dstSecs =
        (tz.utcoffsetSecs - adj, tz.utcoffsetSecs)) := by
  refine ⟨?_, fun hd => by simp [std_dst_offsets, hd],
          fun adj hd => by simp [std_dst_offsets, hd]⟩
  cases hd : tz.dstSecs with
  | none =>
    refine String.ext ?_
    simp [get_vtimezone_component, vtimezone_spec, std_dst_offsets, hd,
      String.data_append, List.append_assoc]
  | some adj =>
    by_cases heq : tz.utcoffsetSecs - adj = tz.utcoffsetSecs
    · refine String.ext ?_
      simp [get_vtimezone_component, vtimezone_spec, std_dst_offsets, hd, heq,
        String.data_append, List.append_assoc]
    · refine String.ext ?_
      simp [get_vtimezone_component, vtimezone_spec, std_dst_offsets, hd, heq,
        String.data_append, List.append_assoc]

end LinqToIcs

namespace LinqToIcs

/-! ## C4 -/

/-- The "Daily Special" section as the formatter renders it (empty when
there are no special recipes). -/
def sectionSpecials (meals : List Meal) : List String :=
  let sp := (mealBuckets meals).1
  if sp = [] then [] else "== Daily Special ==" :: sp.map (fun s => "- " ++ s)

/-- The pre-rendered sections of the "other" meals. -/
def sectionOther (meals : List Meal) : List String := (mealBuckets meals).2.2

/-- The "Milk" section (empty when there are no milk recipes). -/
def sectionMilk (meals : List Meal) : List String :=
  let mi := (mealBuckets meals).2.1
  if mi = [] then [] else "== Milk ==" :: mi.map (fun s => "- " ++ s)

/-- Modelled from the spec: §4.2 step 3 — the groups in fixed order
with one blank-separator element exactly between adjacent nonempty
groups: no leading separator, no trailing separator, no doubled
separator when a middle group is empty. -/
def sepJoinGroups (gs : List (List String)) : List String :=
  List.intercalate ["\\n"] (gs.filter (fun g => g ≠ []))

/-- C4: the assembled description parts are exactly the three sections
joined with a separator element between adjacent nonempty groups and
nowhere else; for a Day with one "Daily Special" meal [A] and one
"Milk" meal [B] the parts are the Special section, exactly one
separator element, then the Milk section, and the rendered description
is the corresponding folded text. -/
theorem c4_separator_placement :
    (∀ meals : List Meal,
      format_description_parts meals =
        sepJoinGroups [sectionSpecials meals, sectionOther meals, sectionMilk meals]) ∧
    format_description_parts
      [⟨"Daily Special", [⟨[⟨"A"⟩]⟩]⟩, ⟨"Milk", [⟨[⟨"B"⟩]⟩]⟩] =
      ["== Daily Special ==", "- A", "\\n", "== Milk ==", "- B"] ∧
    (["== Daily Special ==", "- A", "\\n", "== Milk ==", "- B"].count "\\n") = 1 ∧
    format_description [⟨"Daily Special", [⟨[⟨"A"⟩]⟩]⟩, ⟨"Milk", [⟨[⟨"B"⟩]⟩]⟩] =
      "== Daily Special ==" ++ "\\n" ++ "- A" ++ "\\n" ++ "\\n" ++ "\\n" ++
      "== Milk ==" ++ "\\n" ++ "- B" := by
  refine ⟨?_, by decide, by decide, by decide⟩
  intro meals
  unfold format_description_parts sepJoinGroups sectionSpecials sectionOther sectionMilk
  by_cases hsp : (mealBuckets meals).1 = [] <;>
    by_cases hot : (mealBuckets meals).2.2 = [] <;>
      by_cases hmi : (mealBuckets meals).2.1 = [] <;>
        simp [hsp, hot, hmi, List.intercalate, List.intersperse]

end LinqToIcs

namespace LinqToIcs

/-! ## C9: supporting notions

`tokensOf` gives the maximal non-whitespace runs (the "tokens" of a
line); `uniformChunk` and `chunkSepOK` are the invariants of the word
separator's output used to track tokens through the wrapper. -/

/-- One step of grouping by whitespace: a whitespace character starts a
new (initially empty) piece, a word character extends the current front
piece. -/
def stepGroup (c : Char) (gs : List (List Char)) : List (List Char) :=
  if isPyWS c then [] :: gs
  else match gs with
    | [] => [[c]]
    | t :: ts => (c :: t) :: ts

/-- Split at every whitespace character (pieces may be empty). -/
def spaceGroups (l : List Char) : List (List Char) := l.foldr stepGroup [[]]

theorem spaceGroups_cons (c : Char) (l : List Char) :
    spaceGroups (c :: l) = stepGroup c (spaceGroups l) := rfl

theorem spaceGroups_ne_nil (l : List Char) : spaceGroups l ≠ [] := by
  induction l with
  | nil => simp [spaceGroups]
  | cons c t ih =>
    rw [spaceGroups_cons]
    unfold stepGroup
    split
    · exact List.cons_ne_nil _ _
    · cases hg : spaceGroups t with
      | nil => exact absurd hg ih
      | cons g gs => simp [hg]

end LinqToIcs

namespace LinqToIcs

theorem wordBreakCond_ws_head (ctx : List Char) {c : Char} (rest : List Char)
    (h : isPyWS c = true) : wordBreakCond ctx (c :: rest) = true := by
  unfold wordBreakCond
  simp only [h, Bool.or_true, Bool.true_or]

theorem scanWord_no_ws (l : List Char) :
    ∀ ctx c, c ∈ (scanWord ctx l).1 → isPyWS c = false := by
  induction l with
  | nil => intro ctx c h; simp [scanWord] at h
  | cons x rest ih =>
    intro ctx c h
    unfold scanWord at h
    by_cases hb : wordBreakCond ctx (x :: rest) = true
    · rw [if_pos hb] at h; simp at h
    · rw [if_neg hb] at h
      simp only [] at h
      rcases List.mem_cons.mp h with rfl | h2
      · cases hx : isPyWS c with
        | false => rfl
        | true => exact absurd (wordBreakCond_ws_head ctx rest hx) hb
      · exact ih (x :: ctx) c h2

end LinqToIcs

namespace LinqToIcs

end LinqToIcs

namespace LinqToIcs

/-! ## C9: wrapper building blocks -/

end LinqToIcs

namespace LinqToIcs

/-! ## C9: per-iteration analysis of the wrapper -/

end LinqToIcs

namespace LinqToIcs

end LinqToIcs

namespace LinqToIcs

end LinqToIcs

namespace LinqToIcs

set_option maxRecDepth 4096

end LinqToIcs

namespace LinqToIcs

set_option maxRecDepth 8192

end LinqToIcs
